import Mathlib

/-!
Verification of the full-document text search subsystem of the chat-pdf-flow
viewer (src/src/components/PDFViewer.tsx, the variant with search state).
The embedding models the search-related state of the viewer component and the
handlers executeSearch, handleSearchInputChange, handleNextResult,
handlePreviousResult, onDocumentLoadSuccess, the document-change reset effect,
and the highlight renderer customTextRendererWrapper.

Strings are modelled by the Lean String type (a packed list of characters).
The JavaScript operations trim, toLowerCase, includes and split on an escaped
literal pattern are modelled character-wise below; since the source escapes
every regex metacharacter before building its pattern, the split behaves as a
split on literal, case-insensitive occurrences of the query, which is what
splitAux implements.
-/

namespace ChatPdfFlow

/-- Model of the JavaScript string trim: drop whitespace from both ends of a
character list. -/
def trimData (l : List Char) : List Char :=
  ((l.dropWhile Char.isWhitespace).reverse.dropWhile Char.isWhitespace).reverse

/-- Model of searchQuery.trim() from the source. -/
def jsTrim (s : String) : String := ⟨trimData s.data⟩

/-- Model of s.toLowerCase() on the underlying character list. -/
def lowerData (l : List Char) : List Char := l.map Char.toLower

/-- Model of the JavaScript substring test a.includes(b), on character
lists: b occurs contiguously inside a. -/
def containsSub (q : List Char) : List Char → Bool
  | [] => q.isEmpty
  | c :: rest => q.isPrefixOf (c :: rest) || containsSub q rest

/-- Case-insensitive prefix test used by the split model. -/
def lcPre (q s : List Char) : Bool :=
  (lowerData q).isPrefixOf (lowerData s)

/-- Case-insensitive equality of two character lists; models the comparison
part.toLowerCase() === query.toLowerCase() from the renderer. -/
def lcEq (a b : List Char) : Bool := lowerData a == lowerData b

/-- Case-insensitive containment: some contiguous slice of s equals q up to
case. -/
def containsCI (q : List Char) : List Char → Bool
  | [] => lcPre q []
  | c :: rest => lcPre q (c :: rest) || containsCI q rest

/-- Model of item.str.toLowerCase().includes(query) from executeSearch, where
lowQ is the already trimmed and lower-cased query. -/
def itemMatches (lowQ : List Char) (text : String) : Bool :=
  containsSub lowQ (lowerData text.data)

/-- One page of extracted text: the ordered list of text item strings. -/
abbrev PageItems := List String

/-- A corpus: the pages of the document in order; the page stored at list
index k has 1-based page number k+1. -/
abbrev Corpus := List PageItems

/-- A fallible document as seen through pdfProxy: for each page, either its
extracted text items, or none when getPage/getTextContent rejects. -/
abbrev FDoc := List (Option PageItems)

/-- A document whose every page extracts successfully. -/
def pureDoc (c : Corpus) : FDoc := c.map some

/-- Mirror of the SearchResult record of the source. -/
structure SearchResult where
  pageIndex : Nat
  pageNumber : Nat
  textItemIndex : Nat
deriving DecidableEq, Repr

/-- Indices of the items of a page whose text matches the query, in ascending
order; models the forEach scan inside executeSearch restricted to one page. -/
def matchIdxs (lowQ : List Char) : List String → List Nat
  | [] => []
  | s :: rest =>
      (if itemMatches lowQ s then [0] else []) ++ (matchIdxs lowQ rest).map (· + 1)

/-- Search results contributed by the page with 1-based number pageNum. -/
def searchPage (lowQ : List Char) (pageNum : Nat) (pg : PageItems) : List SearchResult :=
  (matchIdxs lowQ pg).map (fun idx => ⟨pageNum - 1, pageNum, idx⟩)

/-- Scan of a pure corpus, pages numbered from pageNum upward. -/
def searchPages (lowQ : List Char) (pageNum : Nat) : Corpus → List SearchResult
  | [] => []
  | pg :: rest => searchPage lowQ pageNum pg ++ searchPages lowQ (pageNum + 1) rest

/-- Result list built by executeSearch for a given raw query and pure corpus:
the query is trimmed and lower-cased once, then every page is scanned in
order. -/
def newResults (searchQuery : String) (corpus : Corpus) : List SearchResult :=
  searchPages (lowerData (jsTrim searchQuery).data) 1 corpus

/-- Scan of a fallible document: the page loop of executeSearch runs inside a
single try block, so the first rejecting page aborts the whole loop and no
result list is produced. -/
def scanFallible (lowQ : List Char) (pageNum : Nat) : FDoc → Option (List SearchResult)
  | [] => some []
  | none :: _ => none
  | some pg :: rest =>
      (scanFallible lowQ (pageNum + 1) rest).map
        (fun tail => searchPage lowQ pageNum pg ++ tail)

/-- Lookup of item i in an optional page. -/
def itemInPage (i : Nat) : Option PageItems → Option String
  | some pg => pg.get? i
  | none => none

/-- Text item stored in a pure corpus at 1-based page p, item index i. -/
def itemAt (c : Corpus) (p i : Nat) : Option String :=
  match p with
  | 0 => none
  | k + 1 => itemInPage i (c.get? k)

/-- Whether an optional item text matches the trimmed lower-cased query. -/
def matchFlag (lowQ : List Char) : Option String → Bool
  | some t => itemMatches lowQ t
  | none => false

/-- Decides whether the corpus holds a matching item at (p, i). -/
def itemMatchesAt (c : Corpus) (lowQ : List Char) (p i : Nat) : Bool :=
  matchFlag lowQ (itemAt c p i)

/-- Search-related state of the PDFViewer component.  The cursor
currentResultIndex is an integer because the source uses the sentinel value -1
for the unset cursor.  On the reachable range (cursor at least -1, positive
modulus) the Lean emod operation agrees with the JavaScript remainder used in
the handlers. -/
structure ViewerState where
  pdfProxy : Option FDoc
  searchQuery : String
  searchResults : List SearchResult
  currentResultIndex : Int
  totalResults : Nat
  searchMessage : String
  isSearching : Bool
  searchInstanceKey : Nat
deriving Repr, DecidableEq

/-- State of the component before any document has been loaded. -/
def initialState : ViewerState :=
  ⟨none, "", [], -1, 0, "", false, 0⟩

/-- Status message produced on a successful search with n results. -/
def resultsFoundMsg (n : Nat) : String :=
  Nat.repr n ++ " result(s) found."

/-- Early-return branch of executeSearch, taken when pdfProxy is null or the
trimmed query is empty: results, count and cursor are cleared, the message is
"Document not loaded." exactly when the trimmed query is non-empty, and the
instance key is bumped. -/
def shortCircuitSearch (s : ViewerState) : ViewerState :=
  { s with
    searchResults := []
    totalResults := 0
    currentResultIndex := -1
    searchMessage := if jsTrim s.searchQuery = "" then "" else "Document not loaded."
    searchInstanceKey := s.searchInstanceKey + 1
    isSearching := false }

/-- Synchronous opening of executeSearch: either the early-return branch runs
and no asynchronous work is pending, or the search state is cleared
(setIsSearching(true), setSearchMessage(""), setSearchResults([]),
setTotalResults(0), setCurrentResultIndex(-1)) and the pending scan captures
the current pdfProxy and searchQuery. -/
def startSearch (s : ViewerState) : ViewerState × Option (FDoc × String) :=
  match s.pdfProxy with
  | none => (shortCircuitSearch s, none)
  | some fd =>
      if jsTrim s.searchQuery = "" then (shortCircuitSearch s, none)
      else
        ({ s with
            isSearching := true
            searchMessage := ""
            searchResults := []
            totalResults := 0
            currentResultIndex := -1 },
         some (fd, s.searchQuery))

/-- Application of a computed result list: the tail of the try block of
executeSearch after the page loop.  The cursor is set to 0 only when there is
at least one result; on the zero-result branch the source sets only the
message and leaves the cursor at whatever value it has at resolution time
(the synchronous clear at the start of executeSearch makes that -1 in an
uninterleaved run, but nothing re-checks it here). -/
def applyResults (nr : List SearchResult) (s : ViewerState) : ViewerState :=
  { s with
    searchResults := nr
    totalResults := nr.length
    currentResultIndex := if 0 < nr.length then 0 else s.currentResultIndex
    searchMessage := if 0 < nr.length then resultsFoundMsg nr.length else "No results found."
    searchInstanceKey := s.searchInstanceKey + 1
    isSearching := false }

/-- Resolution of a pending scan against the state current at resolution
time.  On success the results are applied unconditionally; when a page
rejected, the catch branch only sets the error message (the result list was
already cleared when the search started) and the finally branch clears
isSearching. -/
def finishPending (p : FDoc × String) (s : ViewerState) : ViewerState :=
  match scanFallible (lowerData (jsTrim p.2).data) 1 p.1 with
  | some nr => applyResults nr s
  | none =>
      { s with
        searchMessage := "Error occurred during search."
        isSearching := false }

/-- The whole of executeSearch run without interleaved events. -/
def executeSearch (s : ViewerState) : ViewerState :=
  match startSearch s with
  | (s1, none) => s1
  | (s1, some p) => finishPending p s1

/-- Model of handleSearchInputChange: the query is always stored; results,
count, cursor and message are cleared only when the new query is exactly the
empty string. -/
def handleSearchInputChange (q : String) (s : ViewerState) : ViewerState :=
  if q = "" then
    { s with
      searchQuery := ""
      searchResults := []
      totalResults := 0
      currentResultIndex := -1
      searchMessage := ""
      searchInstanceKey := s.searchInstanceKey + 1 }
  else { s with searchQuery := q }

/-- Model of handleNextResult. -/
def handleNextResult (s : ViewerState) : ViewerState :=
  if 0 < s.totalResults then
    { s with currentResultIndex := (s.currentResultIndex + 1) % (s.totalResults : Int) }
  else s

/-- Model of handlePreviousResult. -/
def handlePreviousResult (s : ViewerState) : ViewerState :=
  if 0 < s.totalResults then
    { s with
      currentResultIndex :=
        (s.currentResultIndex - 1 + (s.totalResults : Int)) % (s.totalResults : Int) }
  else s

/-- Model of the useEffect that resets viewer and search state when
currentDocument changes. -/
def docChangeReset (s : ViewerState) : ViewerState :=
  { s with
    pdfProxy := none
    searchQuery := ""
    searchResults := []
    currentResultIndex := -1
    totalResults := 0
    isSearching := false
    searchMessage := "" }

/-- Model of onDocumentLoadSuccess: the proxy for the newly loaded document is
stored and all search state is reset. -/
def onDocumentLoadSuccess (d : FDoc) (s : ViewerState) : ViewerState :=
  { s with
    pdfProxy := some d
    searchQuery := ""
    searchResults := []
    currentResultIndex := -1
    totalResults := 0
    isSearching := false
    searchMessage := "" }

/-- Events that mutate the search state. -/
inductive SOp where
  | input (q : String)
  | search
  | searchStart
  | finish (p : FDoc × String)
  | next
  | prev
  | docChange
  | docLoad (d : FDoc)

/-- Small-step semantics of the search state machine. -/
def step : SOp → ViewerState → ViewerState
  | .input q, s => handleSearchInputChange q s
  | .search, s => executeSearch s
  | .searchStart, s => (startSearch s).1
  | .finish p, s => finishPending p s
  | .next, s => handleNextResult s
  | .prev, s => handlePreviousResult s
  | .docChange, s => docChangeReset s
  | .docLoad d, s => onDocumentLoadSuccess d s

/-- Navigator invariant: the stored count caches the length of the result
list, the cursor is a valid index whenever the result list is non-empty, and
it is the sentinel -1 whenever the result list is empty. -/
def NavInv (s : ViewerState) : Prop :=
  s.totalResults = s.searchResults.length ∧
  (s.searchResults ≠ [] → 0 ≤ s.currentResultIndex ∧
      s.currentResultIndex < (s.searchResults.length : Int)) ∧
  (s.searchResults = [] → s.currentResultIndex = -1)

/-- Fuel-indexed model of textItem.str.split(regex) where the regex is the
escaped trimmed query with one capture group and the flags gi: the string is
scanned left to right; at each case-insensitive occurrence of the query the
pending gap is emitted, the matched slice is emitted (the capture group), and
scanning resumes after it.  The output alternates gap, match, gap, ..., gap,
with empty gaps kept, exactly as the JavaScript split with a capture group
produces.  Fuel at least the length of the string suffices. -/
def splitAux (q : List Char) : Nat → List Char → List (List Char)
  | _, [] => [[]]
  | 0, s => [s]
  | fuel + 1, c :: rest =>
      if lcPre q (c :: rest) then
        [] :: (c :: rest).take q.length :: splitAux q fuel ((c :: rest).drop q.length)
      else
        match splitAux q fuel rest with
        | [] => [[c]]
        | h :: t => (c :: h) :: t

/-- Split of a string on every case-insensitive occurrence of q. -/
def splitParts (q s : List Char) : List (List Char) := splitAux q s.length s

/-- One run of annotated output of the highlight renderer: either plain text
or a mark element, whose flag tells whether it carries the
current-search-highlight class (true) or the search-highlight class. -/
inductive Run where
  | plain (text : String)
  | mark (active : Bool) (text : String)
deriving DecidableEq, Repr

/-- Characters of a run. -/
def runData : Run → List Char
  | .plain t => t.data
  | .mark _ t => t.data

/-- JavaScript array indexing searchResults[i] with an integer index. -/
def resultAt (rs : List SearchResult) (i : Int) : Option SearchResult :=
  if i < 0 then none else rs.get? i.toNat

/-- The isCurrentActiveMatch test of the renderer: the cursor is set and the
result it designates lies at this page and item index. -/
def isCurrentActiveMatch (s : ViewerState) (page idx : Nat) : Bool :=
  decide (s.currentResultIndex ≠ -1) &&
    match resultAt s.searchResults s.currentResultIndex with
    | some r => r.pageNumber == page && r.textItemIndex == idx
    | none => false

/-- Predicate used by searchResults.find when the renderer looks this page
and item index up in the result set. -/
def resultPred (page idx : Nat) : SearchResult → Bool :=
  fun r => r.pageNumber == page && r.textItemIndex == idx

/-- Model of customTextRendererWrapper: plain text when the trimmed query is
empty, the result set is empty, or this (page, item) is not a result;
otherwise the text is split on every case-insensitive occurrence of the
trimmed query and each part equal to the query up to case becomes a mark run,
active exactly when isCurrentActiveMatch holds. -/
def customTextRendererWrapper (s : ViewerState) (pageNumberToRender : Nat)
    (textItem : String) (itemIndex : Nat) : List Run :=
  if jsTrim s.searchQuery = "" || s.searchResults.isEmpty then [.plain textItem]
  else
    match s.searchResults.find? (resultPred pageNumberToRender itemIndex) with
    | none => [.plain textItem]
    | some _ =>
        let isActive := isCurrentActiveMatch s pageNumberToRender itemIndex
        let query := jsTrim s.searchQuery
        (splitParts query.data textItem.data).map
          (fun part =>
            if lcEq part query.data then Run.mark isActive ⟨part⟩ else Run.plain ⟨part⟩)

lemma navInv_shortCircuit (s : ViewerState) : NavInv (shortCircuitSearch s) := by
  simp [NavInv, shortCircuitSearch]

lemma navInv_applyResults (nr : List SearchResult) (s : ViewerState)
    (hcur : s.currentResultIndex = -1) : NavInv (applyResults nr s) := by
  rcases nr with _ | ⟨r, rest⟩
  · simp [NavInv, applyResults, hcur]
  · simp only [NavInv, applyResults]
    refine ⟨by simp, fun _ => ?_, fun hh => ?_⟩
    · simp
    · exact absurd hh (by simp)

lemma navInv_startSearch (s : ViewerState) : NavInv (startSearch s).1 := by
  unfold startSearch
  rcases s.pdfProxy with _ | fd
  · exact navInv_shortCircuit s
  · by_cases ht : jsTrim s.searchQuery = "" <;> simp [ht]
    · exact navInv_shortCircuit s
    · simp [NavInv]

lemma navInv_finishPending (p : FDoc × String) (s : ViewerState) (h : NavInv s)
    (hcur : s.currentResultIndex = -1) : NavInv (finishPending p s) := by
  unfold finishPending
  rcases scanFallible (lowerData (jsTrim p.2).data) 1 p.1 with _ | nr
  · simpa [NavInv] using h
  · exact navInv_applyResults nr s hcur

lemma navInv_executeSearch (s : ViewerState) : NavInv (executeSearch s) := by
  obtain ⟨proxy, q, res, cur, tot, msg, srch, key⟩ := s
  cases proxy with
  | none =>
      simp only [executeSearch, startSearch]
      exact navInv_shortCircuit _
  | some fd =>
      by_cases hq : jsTrim q = ""
      · simp only [executeSearch, startSearch, if_pos hq]
        exact navInv_shortCircuit _
      · simp only [executeSearch, startSearch, if_neg hq]
        exact navInv_finishPending _ _ ⟨rfl, fun hn => absurd rfl hn, fun _ => rfl⟩ rfl

lemma navInv_next (s : ViewerState) (h : NavInv s) : NavInv (handleNextResult s) := by
  obtain ⟨hlen, hne, hemp⟩ := h
  unfold handleNextResult
  split
  · next hpos =>
    have hlpos : 0 < s.searchResults.length := by omega
    have hne0 : (s.totalResults : Int) ≠ 0 := by
      simp only [ne_eq, Nat.cast_eq_zero]
      omega
    refine ⟨hlen, fun _ => ⟨Int.emod_nonneg _ hne0, ?_⟩, fun hh => ?_⟩
    · have := Int.emod_lt_of_pos (s.currentResultIndex + 1)
        (b := (s.totalResults : Int)) (by exact_mod_cast hpos)
      simpa [hlen] using this
    · exact absurd hlpos (by simp [show s.searchResults = [] from hh])
  · exact ⟨hlen, hne, hemp⟩

lemma navInv_prev (s : ViewerState) (h : NavInv s) : NavInv (handlePreviousResult s) := by
  obtain ⟨hlen, hne, hemp⟩ := h
  unfold handlePreviousResult
  split
  · next hpos =>
    have hlpos : 0 < s.searchResults.length := by omega
    have hne0 : (s.totalResults : Int) ≠ 0 := by
      simp only [ne_eq, Nat.cast_eq_zero]
      omega
    refine ⟨hlen, fun _ => ⟨Int.emod_nonneg _ hne0, ?_⟩, fun hh => ?_⟩
    · have := Int.emod_lt_of_pos (s.currentResultIndex - 1 + (s.totalResults : Int))
        (b := (s.totalResults : Int)) (by exact_mod_cast hpos)
      simpa [hlen] using this
    · exact absurd hlpos (by simp [show s.searchResults = [] from hh])
  · exact ⟨hlen, hne, hemp⟩

lemma next_cursor (s : ViewerState) (hpos : 0 < s.totalResults) :
    (handleNextResult s).currentResultIndex =
      (s.currentResultIndex + 1) % (s.totalResults : Int) := by
  simp [handleNextResult, hpos]

lemma prev_cursor (s : ViewerState) (hpos : 0 < s.totalResults) :
    (handlePreviousResult s).currentResultIndex =
      (s.currentResultIndex - 1 + (s.totalResults : Int)) % (s.totalResults : Int) := by
  simp [handlePreviousResult, hpos]

lemma next_totalResults (s : ViewerState) :
    (handleNextResult s).totalResults = s.totalResults := by
  unfold handleNextResult
  split <;> rfl

lemma prev_totalResults (s : ViewerState) :
    (handlePreviousResult s).totalResults = s.totalResults := by
  unfold handlePreviousResult
  split <;> rfl

lemma emod_add_one (c : Int) (n : Int) : (c % n + 1) % n = (c + 1) % n := by
  calc (c % n + 1) % n = (c % n % n + 1 % n) % n := by rw [Int.add_emod]
    _ = (c % n + 1 % n) % n := by rw [Int.emod_emod_of_dvd _ dvd_rfl]
    _ = (c + 1) % n := (Int.add_emod _ _ _).symm

lemma emod_sub_one (c : Int) (n : Int) : (c % n - 1) % n = (c - 1) % n := by
  calc (c % n - 1) % n = (c % n % n - 1 % n) % n := by rw [Int.sub_emod]
    _ = (c % n - 1 % n) % n := by rw [Int.emod_emod_of_dvd _ dvd_rfl]
    _ = (c - 1) % n := (Int.sub_emod _ _ _).symm

lemma next_iterate (n : Nat) (hpos : 0 < n) (k : Nat) :
    ∀ s : ViewerState, s.totalResults = n → 0 ≤ s.currentResultIndex →
      s.currentResultIndex < (n : Int) →
      ((handleNextResult)^[k] s).currentResultIndex =
          (s.currentResultIndex + k) % (n : Int) ∧
      ((handleNextResult)^[k] s).totalResults = n := by
  induction k with
  | zero =>
      intro s ht h0 h1
      refine ⟨?_, ht⟩
      simpa using (Int.emod_eq_of_lt h0 h1).symm
  | succ k ih =>
      intro s ht h0 h1
      obtain ⟨hc, htot⟩ := ih s ht h0 h1
      rw [Function.iterate_succ_apply']
      have hpos' : 0 < ((handleNextResult)^[k] s).totalResults := by
        rw [htot]
        exact hpos
      refine ⟨?_, by rw [next_totalResults, htot]⟩
      rw [next_cursor _ hpos', hc, htot, emod_add_one]
      push_cast
      ring_nf

lemma prev_iterate (n : Nat) (hpos : 0 < n) (k : Nat) :
    ∀ s : ViewerState, s.totalResults = n → 0 ≤ s.currentResultIndex →
      s.currentResultIndex < (n : Int) →
      ((handlePreviousResult)^[k] s).currentResultIndex =
          (s.currentResultIndex - k) % (n : Int) ∧
      ((handlePreviousResult)^[k] s).totalResults = n := by
  induction k with
  | zero =>
      intro s ht h0 h1
      refine ⟨?_, ht⟩
      simpa using (Int.emod_eq_of_lt h0 h1).symm
  | succ k ih =>
      intro s ht h0 h1
      obtain ⟨hc, htot⟩ := ih s ht h0 h1
      rw [Function.iterate_succ_apply']
      have hpos' : 0 < ((handlePreviousResult)^[k] s).totalResults := by
        rw [htot]
        exact hpos
      refine ⟨?_, by rw [prev_totalResults, htot]⟩
      rw [prev_cursor _ hpos', hc, htot, Int.add_emod_self, emod_sub_one]
      push_cast
      ring_nf

/-- Interleaved schedule that breaks the navigator invariant: document A
([["foo"]]) loads, a search for "zzz" starts and stays pending, document B
([["bar"]]) loads (resetting the search state and, in the source, the
isSearching flag, so the controls are live again), a search for "bar" starts
and resolves with one result (cursor 0), and then the stale zero-match search
for "zzz" on document A resolves.  Its zero-result branch stores the empty
result list and the message but never touches the cursor. -/
def staleZeroMatchTrace : ViewerState :=
  step (SOp.finish (pureDoc [["foo"]], "zzz"))
    (step (SOp.finish (pureDoc [["bar"]], "bar"))
      (step SOp.searchStart
        (step (SOp.input "bar")
          (step (SOp.docLoad (pureDoc [["bar"]]))
            (step SOp.searchStart
              (step (SOp.input "zzz")
                (step (SOp.docLoad (pureDoc [["foo"]])) initialState)))))))

/-- C7 counterexample: the operations of the stale zero-match schedule,
starting from the initial state, end in a state whose result set is empty
while the cursor still holds index 0, because the zero-result branch of the
resolution code sets only the message and the missing stale-search guard lets
it land on a state with a set cursor; so not every operation preserves the
navigator invariant. -/
theorem c7_navigator_invariant_counterexample :
    staleZeroMatchTrace.searchResults = [] ∧
    staleZeroMatchTrace.currentResultIndex = 0 ∧
    staleZeroMatchTrace.searchMessage = "No results found." ∧
    ¬ NavInv staleZeroMatchTrace := by
  refine ⟨by decide, by decide, by decide, ?_⟩
  intro h
  exact absurd (h.2.2 (by decide)) (by decide)

/-- C7 amended: query input, executing a search (including its failure path),
starting a search, next, previous, document change and document load all
preserve the navigator invariant unconditionally; the resolution of a pending
search preserves it only when it lands on a state whose cursor is unset,
which the synchronous clear at search start guarantees in an uninterleaved
run but no generation guard re-establishes after an interleaving. -/
theorem c7_navigator_invariant_amended (s : ViewerState) (h : NavInv s) :
    (∀ q : String, NavInv (step (SOp.input q) s)) ∧
    NavInv (step SOp.search s) ∧
    NavInv (step SOp.searchStart s) ∧
    NavInv (step SOp.next s) ∧
    NavInv (step SOp.prev s) ∧
    NavInv (step SOp.docChange s) ∧
    (∀ d : FDoc, NavInv (step (SOp.docLoad d) s)) ∧
    (∀ p : FDoc × String, s.currentResultIndex = -1 →
      NavInv (step (SOp.finish p) s)) := by
  refine ⟨?_, navInv_executeSearch s, navInv_startSearch s, navInv_next s h,
    navInv_prev s h, ?_, ?_, ?_⟩
  · intro q
    show NavInv (handleSearchInputChange q s)
    unfold handleSearchInputChange
    split
    · simp [NavInv]
    · exact h
  · simp [step, docChangeReset, NavInv]
  · intro d
    simp [step, onDocumentLoadSuccess, NavInv]
  · intro p hcur
    exact navInv_finishPending p s h hcur

/-- Witness for the amended C7 at concrete operations and state. -/
theorem c7_navigator_invariant_amended_witness :
    NavInv (step SOp.next initialState) ∧
    NavInv (step (SOp.finish (pureDoc [["foo"]], "zzz")) initialState) := by
  have h := c7_navigator_invariant_amended initialState
    ⟨rfl, fun hn => absurd rfl hn, fun _ => rfl⟩
  exact ⟨h.2.2.2.1, h.2.2.2.2.2.2.2 (pureDoc [["foo"]], "zzz") rfl⟩

/-- C6: with the cached count agreeing with the result list, next and
previous are identities on an empty result set, and on a non-empty result set
with a valid cursor i they move to (i+1) mod n and (i-1+n) mod n, n
consecutive calls of either return to the start, and previous from position 0
lands on the last index. -/
theorem c6_navigator_wraparound (s : ViewerState)
    (hlen : s.totalResults = s.searchResults.length) :
    (s.searchResults = [] →
      handleNextResult s = s ∧ handlePreviousResult s = s) ∧
    (0 ≤ s.currentResultIndex →
      s.currentResultIndex < (s.searchResults.length : Int) →
      (handleNextResult s).currentResultIndex =
        (s.currentResultIndex + 1) % (s.searchResults.length : Int) ∧
      (handlePreviousResult s).currentResultIndex =
        (s.currentResultIndex - 1 + (s.searchResults.length : Int)) %
          (s.searchResults.length : Int) ∧
      ((handleNextResult)^[s.searchResults.length] s).currentResultIndex =
        s.currentResultIndex ∧
      ((handlePreviousResult)^[s.searchResults.length] s).currentResultIndex =
        s.currentResultIndex ∧
      (s.currentResultIndex = 0 →
        (handlePreviousResult s).currentResultIndex =
          (s.searchResults.length : Int) - 1)) := by
  constructor
  · intro hnil
    have h0 : s.totalResults = 0 := by
      rw [hlen, hnil]
      rfl
    constructor
    · unfold handleNextResult
      simp [h0]
    · unfold handlePreviousResult
      simp [h0]
  · intro h0 h1
    set n := s.searchResults.length with hn
    have hnpos : 0 < n := by
      by_contra hc
      have : n = 0 := by omega
      rw [this] at h1
      omega
    have hpos : 0 < s.totalResults := by omega
    have hInt : (0 : Int) < (n : Int) := by exact_mod_cast hnpos
    refine ⟨?_, ?_, ?_, ?_, ?_⟩
    · rw [next_cursor s hpos, hlen]
    · rw [prev_cursor s hpos, hlen]
    · have := (next_iterate n hnpos n s (by omega) h0 h1).1
      rw [this]
      rw [Int.add_emod_self, Int.emod_eq_of_lt h0 h1]
    · have := (prev_iterate n hnpos n s (by omega) h0 h1).1
      rw [this]
      have hsub : (s.currentResultIndex - (n : Int)) % (n : Int) = s.currentResultIndex % n := by
        rw [Int.sub_emod, Int.emod_self, sub_zero, Int.emod_emod_of_dvd _ dvd_rfl]
      rw [hsub, Int.emod_eq_of_lt h0 h1]
    · intro hzero
      rw [prev_cursor s hpos, hlen, hzero]
      have : (0 : Int) - 1 + (n : Int) = (n : Int) - 1 := by ring
      rw [this, Int.emod_eq_of_lt (by omega) (by omega)]

/-- Witness for C6 on a concrete three-result state. -/
theorem c6_navigator_wraparound_witness :
    ((handleNextResult)^[3]
        { initialState with
            searchResults := [⟨0, 1, 0⟩, ⟨0, 1, 2⟩, ⟨1, 2, 0⟩]
            currentResultIndex := 0
            totalResults := 3 }).currentResultIndex = 0 := by
  have h := (c6_navigator_wraparound
    { initialState with
        searchResults := [⟨0, 1, 0⟩, ⟨0, 1, 2⟩, ⟨1, 2, 0⟩]
        currentResultIndex := 0
        totalResults := 3 } rfl).2 (by decide) (by decide)
  exact h.2.2.1

lemma countP_matchIdxs (lowQ : List Char) (l : List String) :
    ∀ i : Nat, (matchIdxs lowQ l).countP (fun j => decide (j = i)) =
      if matchFlag lowQ (l.get? i) then 1 else 0 := by
  induction l with
  | nil => intro i; rfl
  | cons s rest ih =>
      intro i
      unfold matchIdxs
      rw [List.countP_append, List.countP_map]
      cases i with
      | zero =>
          have hz : (matchIdxs lowQ rest).countP
              ((fun j => decide (j = 0)) ∘ (· + 1)) = 0 := by
            rw [List.countP_eq_zero]
            intro a _
            simp
          rw [hz]
          by_cases hm : itemMatches lowQ s <;> simp [hm, matchFlag]
      | succ k =>
          have hc : (matchIdxs lowQ rest).countP ((fun j => decide (j = k + 1)) ∘ (· + 1)) =
              (matchIdxs lowQ rest).countP (fun j => decide (j = k)) := by
            apply List.countP_congr
            intro a _
            simp only [Function.comp_apply, decide_eq_true_eq]
            omega
          rw [hc, ih k]
          by_cases hm : itemMatches lowQ s <;> simp [hm, matchFlag]

lemma mem_matchIdxs (lowQ : List Char) (l : List String) :
    ∀ i : Nat, i ∈ matchIdxs lowQ l ↔
      ∃ t, l.get? i = some t ∧ itemMatches lowQ t = true := by
  induction l with
  | nil => intro i; simp [matchIdxs]
  | cons s rest ih =>
      intro i
      unfold matchIdxs
      rw [List.mem_append]
      cases i with
      | zero =>
          by_cases hm : itemMatches lowQ s <;> simp [hm, ih]
      | succ k =>
          by_cases hm : itemMatches lowQ s <;> simp [hm, ih k]

lemma pairwise_matchIdxs (lowQ : List Char) (l : List String) :
    List.Pairwise (· < ·) (matchIdxs lowQ l) := by
  induction l with
  | nil => exact List.Pairwise.nil
  | cons s rest ih =>
      unfold matchIdxs
      rw [List.pairwise_append]
      refine ⟨?_, ih.map _ (by omega), ?_⟩
      · by_cases hm : itemMatches lowQ s <;> simp [hm]
      · intro a ha b hb
        have ha0 : a = 0 := by
          by_cases hm : itemMatches lowQ s <;> simp [hm] at ha
          exact ha
        obtain ⟨j, _, rfl⟩ := List.mem_map.mp hb
        omega

/-- Reading order on search results: page strictly first, then item index. -/
def resLex (a b : SearchResult) : Prop :=
  a.pageNumber < b.pageNumber ∨
    (a.pageNumber = b.pageNumber ∧ a.textItemIndex < b.textItemIndex)

lemma mem_searchPage_pageNumber {lowQ : List Char} {n : Nat} {pg : PageItems}
    {r : SearchResult} (h : r ∈ searchPage lowQ n pg) : r.pageNumber = n := by
  obtain ⟨i, _, rfl⟩ := List.mem_map.mp h
  rfl

lemma mem_searchPages_pageNumber {lowQ : List Char} :
    ∀ (c : Corpus) (n : Nat) (r : SearchResult),
      r ∈ searchPages lowQ n c → n ≤ r.pageNumber := by
  intro c
  induction c with
  | nil => intro n r h; simp [searchPages] at h
  | cons pg rest ih =>
      intro n r h
      rcases List.mem_append.mp h with h1 | h2
      · rw [mem_searchPage_pageNumber h1]
      · exact Nat.le_of_succ_le (ih (n + 1) r h2)

lemma pairwise_searchPage (lowQ : List Char) (n : Nat) (pg : PageItems) :
    List.Pairwise resLex (searchPage lowQ n pg) :=
  (pairwise_matchIdxs lowQ pg).map _ (fun a b hab => Or.inr ⟨rfl, hab⟩)

lemma pairwise_searchPages (lowQ : List Char) :
    ∀ (c : Corpus) (n : Nat), List.Pairwise resLex (searchPages lowQ n c) := by
  intro c
  induction c with
  | nil => intro n; exact List.Pairwise.nil
  | cons pg rest ih =>
      intro n
      rw [searchPages, List.pairwise_append]
      refine ⟨pairwise_searchPage lowQ n pg, ih (n + 1), ?_⟩
      intro a ha b hb
      have h1 : a.pageNumber = n := mem_searchPage_pageNumber ha
      have h2 : n + 1 ≤ b.pageNumber := mem_searchPages_pageNumber rest (n + 1) b hb
      exact Or.inl (by omega)

lemma countP_searchPage (lowQ : List Char) (n : Nat) (pg : PageItems) (p i : Nat) :
    (searchPage lowQ n pg).countP
        (fun r => decide (r.pageNumber = p ∧ r.textItemIndex = i)) =
      if p = n then (matchIdxs lowQ pg).countP (fun j => decide (j = i)) else 0 := by
  unfold searchPage
  rw [List.countP_map]
  by_cases hp : p = n
  · subst hp
    rw [if_pos rfl]
    apply List.countP_congr
    intro a _
    simp
  · rw [if_neg hp, List.countP_eq_zero]
    intro a _
    simp only [Function.comp_apply, decide_eq_true_eq]
    rintro ⟨h1, -⟩
    omega

/-- Number of results a single optional page contributes at item index i. -/
def pageHitCount (lowQ : List Char) (i : Nat) : Option PageItems → Nat
  | some pg => (matchIdxs lowQ pg).countP (fun j => decide (j = i))
  | none => 0

lemma countP_searchPages (lowQ : List Char) (p i : Nat) :
    ∀ (c : Corpus) (n : Nat),
      (searchPages lowQ n c).countP
          (fun r => decide (r.pageNumber = p ∧ r.textItemIndex = i)) =
        if n ≤ p then pageHitCount lowQ i (c.get? (p - n)) else 0 := by
  intro c
  induction c with
  | nil =>
      intro n
      simp only [searchPages, List.countP_nil, List.get?_nil]
      split <;> rfl
  | cons pg rest ih =>
      intro n
      rw [searchPages, List.countP_append, countP_searchPage, ih (n + 1)]
      by_cases h1 : p = n
      · subst h1
        rw [if_pos rfl, if_neg (by omega), if_pos (le_refl p)]
        simp [pageHitCount]
      · rw [if_neg h1]
        by_cases h2 : n ≤ p
        · have h3 : n + 1 ≤ p := by omega
          rw [if_pos h3, if_pos h2]
          obtain ⟨e, he⟩ : ∃ e, p - n = e + 1 := ⟨p - n - 1, by omega⟩
          have he2 : p - (n + 1) = e := by omega
          rw [he, he2, Nat.zero_add, List.get?_cons_succ]
        · rw [if_neg (by omega), if_neg h2]

lemma countP_newResults (q : String) (c : Corpus) (p i : Nat) :
    (newResults q c).countP
        (fun r => decide (r.pageNumber = p ∧ r.textItemIndex = i)) =
      if itemMatchesAt c (lowerData (jsTrim q).data) p i then 1 else 0 := by
  unfold newResults
  rw [countP_searchPages]
  cases p with
  | zero => simp [itemMatchesAt, itemAt, matchFlag]
  | succ k =>
      rw [if_pos (by omega)]
      simp only [itemMatchesAt, itemAt, Nat.succ_sub_one]
      have hgen : ∀ o : Option PageItems,
          pageHitCount (lowerData (jsTrim q).data) i o =
            if matchFlag (lowerData (jsTrim q).data) (itemInPage i o) then 1 else 0 := by
        intro o
        cases o with
        | none => simp [pageHitCount, itemInPage, matchFlag]
        | some pg => simp [pageHitCount, itemInPage, countP_matchIdxs]
      exact hgen _

lemma scanFallible_pureDoc (lowQ : List Char) :
    ∀ (c : Corpus) (n : Nat),
      scanFallible lowQ n (pureDoc c) = some (searchPages lowQ n c) := by
  intro c
  induction c with
  | nil => intro n; rfl
  | cons pg rest ih =>
      intro n
      have ih1 := ih (n + 1)
      simp only [pureDoc] at ih1 ⊢
      simp only [List.map_cons, scanFallible, ih1, Option.map_some']
      rfl

lemma scanFallible_of_failure (lowQ : List Char) :
    ∀ (fd : FDoc) (n : Nat), none ∈ fd → scanFallible lowQ n fd = none := by
  intro fd
  induction fd with
  | nil => intro n h; simp at h
  | cons o rest ih =>
      intro n h
      cases o with
      | none => rfl
      | some pg =>
          rcases List.mem_cons.mp h with h1 | h2
          · exact absurd h1.symm (by simp)
          · simp only [scanFallible, ih (n + 1) h2, Option.map_none']

lemma scanFallible_some (lowQ : List Char) :
    ∀ (fd : FDoc) (n : Nat) (nr : List SearchResult),
      scanFallible lowQ n fd = some nr →
      ∃ c : Corpus, fd = pureDoc c ∧ nr = searchPages lowQ n c := by
  intro fd
  induction fd with
  | nil =>
      intro n nr h
      refine ⟨[], rfl, ?_⟩
      simpa [scanFallible] using h.symm
  | cons o rest ih =>
      intro n nr h
      cases o with
      | none => exact absurd h (by simp [scanFallible])
      | some pg =>
          simp only [scanFallible] at h
          rcases htail : scanFallible lowQ (n + 1) rest with _ | tail
          · rw [htail] at h
            exact absurd h (by simp)
          · rw [htail] at h
            obtain ⟨c, hc, htl⟩ := ih (n + 1) tail htail
            refine ⟨pg :: c, by simp [pureDoc, hc], ?_⟩
            simp only [Option.map_some', Option.some.injEq] at h
            rw [← h, htl, searchPages]

lemma executeSearch_results_pure (c : Corpus) (s : ViewerState)
    (hp : s.pdfProxy = some (pureDoc c)) (hq : jsTrim s.searchQuery ≠ "") :
    (executeSearch s).searchResults = newResults s.searchQuery c := by
  obtain ⟨proxy, q, res, cur, tot, msg, srch, key⟩ := s
  simp only at hp hq
  subst hp
  simp only [executeSearch, startSearch, if_neg hq, finishPending, scanFallible_pureDoc,
    applyResults, newResults]

/-- C1: whenever a search executes over a loaded pure corpus with a query
that is non-empty after trimming, a pair (page, itemIndex) occurs in the
produced result set exactly when the corpus holds an item there whose
lower-cased text contains the lower-cased trimmed query as a substring, and a
matching item contributes exactly one result however many occurrences its
text contains. -/
theorem c1_search_result_membership (c : Corpus) (s : ViewerState)
    (hp : s.pdfProxy = some (pureDoc c)) (hq : jsTrim s.searchQuery ≠ "")
    (p i : Nat) :
    ((executeSearch s).searchResults.countP
        (fun r => decide (r.pageNumber = p ∧ r.textItemIndex = i)) =
      if itemMatchesAt c (lowerData (jsTrim s.searchQuery).data) p i then 1 else 0) ∧
    ((∃ r ∈ (executeSearch s).searchResults,
        r.pageNumber = p ∧ r.textItemIndex = i) ↔
      itemMatchesAt c (lowerData (jsTrim s.searchQuery).data) p i = true) := by
  rw [executeSearch_results_pure c s hp hq]
  have hcount := countP_newResults s.searchQuery c p i
  refine ⟨hcount, ?_, ?_⟩
  · rintro ⟨r, hr, h1, h2⟩
    by_contra hflag
    rw [Bool.not_eq_true] at hflag
    rw [hflag, if_neg (by simp)] at hcount
    rw [List.countP_eq_zero] at hcount
    exact hcount r hr (by simp [h1, h2])
  · intro hflag
    rw [hflag, if_pos rfl] at hcount
    have hpos : 0 < (newResults s.searchQuery c).countP
        (fun r => decide (r.pageNumber = p ∧ r.textItemIndex = i)) := by omega
    obtain ⟨r, hr, hpred⟩ := List.countP_pos_iff.mp hpos
    simp only [decide_eq_true_eq] at hpred
    exact ⟨r, hr, hpred⟩

/-- Witness for C1: a two-page corpus searched with a padded mixed-case
query; the item on page 2 matches and contributes exactly one result. -/
theorem c1_search_result_membership_witness :
    jsTrim " Hell" ≠ "" ∧
    (executeSearch { initialState with
        pdfProxy := some (pureDoc [["Hello"], ["the hello there", "x"]])
        searchQuery := " Hell" }).searchResults.countP
      (fun r => decide (r.pageNumber = 2 ∧ r.textItemIndex = 0)) = 1 := by
  refine ⟨by decide, ?_⟩
  have h := (c1_search_result_membership [["Hello"], ["the hello there", "x"]]
    { initialState with
        pdfProxy := some (pureDoc [["Hello"], ["the hello there", "x"]])
        searchQuery := " Hell" } rfl (by decide) 2 0).1
  rw [h]
  decide

/-- C2: the result set produced by executeSearch is always sorted in strictly
ascending lexicographic (page, itemIndex) order, whatever the state it runs
in: results are pushed page 1 upward and, within a page, in ascending item
order. -/
theorem c2_results_sorted (s : ViewerState) :
    List.Pairwise resLex (executeSearch s).searchResults := by
  obtain ⟨proxy, q, res, cur, tot, msg, srch, key⟩ := s
  cases proxy with
  | none =>
      simp only [executeSearch, startSearch, shortCircuitSearch]
      exact List.Pairwise.nil
  | some fd =>
      by_cases hq : jsTrim q = ""
      · simp only [executeSearch, startSearch, if_pos hq, shortCircuitSearch]
        exact List.Pairwise.nil
      · simp only [executeSearch, startSearch, if_neg hq, finishPending]
        rcases hscan : scanFallible (lowerData (jsTrim q).data) 1 fd with _ | nr
        · exact List.Pairwise.nil
        · obtain ⟨c, -, hnr⟩ := scanFallible_some _ fd 1 nr hscan
          simp only [applyResults]
          rw [hnr]
          exact pairwise_searchPages _ c 1

/-- C3 counterexample: a document whose first page rejects and whose second
page holds a matching item.  Contrary to the claim, the page loop aborts:
the matching item of page 2 does not appear in the result set, no normal
result set is produced, and the status message is the scan error message. -/
theorem c3_page_failure_counterexample :
    (executeSearch { initialState with
        pdfProxy := some [none, some ["foo"]]
        searchQuery := "foo" }).searchResults = [] ∧
    (executeSearch { initialState with
        pdfProxy := some [none, some ["foo"]]
        searchQuery := "foo" }).searchMessage = "Error occurred during search." ∧
    itemMatches (lowerData (jsTrim "foo").data) "foo" = true ∧
    ¬ ∃ r ∈ (executeSearch { initialState with
        pdfProxy := some [none, some ["foo"]]
        searchQuery := "foo" }).searchResults,
      r.pageNumber = 2 ∧ r.textItemIndex = 0 := by
  decide

/-- C3 amended: when any page of the loaded document fails to extract, the
whole scan is aborted by the surrounding try block: the result set stays
empty, the count stays zero, the cursor stays unset, and the status message
becomes the scan error message; the failure is swallowed rather than
propagated (executeSearch is total). -/
theorem c3_page_failure_aborts (s : ViewerState) (fd : FDoc)
    (hp : s.pdfProxy = some fd) (hq : jsTrim s.searchQuery ≠ "")
    (hfail : none ∈ fd) :
    (executeSearch s).searchResults = [] ∧
    (executeSearch s).totalResults = 0 ∧
    (executeSearch s).currentResultIndex = -1 ∧
    (executeSearch s).searchMessage = "Error occurred during search." := by
  obtain ⟨proxy, q, res, cur, tot, msg, srch, key⟩ := s
  simp only at hp hq
  subst hp
  simp only [executeSearch, startSearch, if_neg hq, finishPending,
    scanFallible_of_failure _ fd 1 hfail]
  exact ⟨trivial, trivial, trivial, trivial⟩

/-- Witness for the amended C3 on the concrete failing document. -/
theorem c3_page_failure_aborts_witness :
    (executeSearch { initialState with
        pdfProxy := some [none, some ["foo"]]
        searchQuery := "foo" }).searchMessage = "Error occurred during search." :=
  (c3_page_failure_aborts
    { initialState with
        pdfProxy := some [none, some ["foo"]]
        searchQuery := "foo" }
    [none, some ["foo"]] rfl (by decide) (by decide)).2.2.2

/-- C4 counterexample trace: a search is started on a document whose only
item is "foo", a new document whose only item is "bar" finishes loading (which
clears all search state and replaces the proxy), and then the stale search
resolves.  Its results are applied anyway: the visible result set is the one
computed for the old document even though searching the new corpus for the
same query finds nothing, refuting stale-result protection. -/
theorem c4_stale_search_counterexample :
    (match startSearch { initialState with
        pdfProxy := some (pureDoc [["foo"]])
        searchQuery := "foo" } with
     | (s1, some p) => finishPending p (onDocumentLoadSuccess (pureDoc [["bar"]]) s1)
     | (s1, none) => s1).pdfProxy = some (pureDoc [["bar"]]) ∧
    (match startSearch { initialState with
        pdfProxy := some (pureDoc [["foo"]])
        searchQuery := "foo" } with
     | (s1, some p) => finishPending p (onDocumentLoadSuccess (pureDoc [["bar"]]) s1)
     | (s1, none) => s1).searchResults = [⟨0, 1, 0⟩] ∧
    (match startSearch { initialState with
        pdfProxy := some (pureDoc [["foo"]])
        searchQuery := "foo" } with
     | (s1, some p) => finishPending p (onDocumentLoadSuccess (pureDoc [["bar"]]) s1)
     | (s1, none) => s1).searchMessage = "1 result(s) found." ∧
    newResults "foo" [["bar"]] = [] := by
  decide

/-- C4 amended: resolution of a pending search applies the result list
computed from its own snapshot unconditionally; no generation or document
identity is checked, so the applied result set is the same whether or not a
document load happened in between, and when two pending searches resolve one
after the other, the one that resolves last determines the visible result
set. -/
theorem c4_stale_results_applied (p p2 : FDoc × String) (s : ViewerState)
    (d : FDoc) (nr : List SearchResult)
    (hscan : scanFallible (lowerData (jsTrim p.2).data) 1 p.1 = some nr) :
    (finishPending p (onDocumentLoadSuccess d s)).searchResults = nr ∧
    (finishPending p (finishPending p2 s)).searchResults = nr := by
  unfold finishPending
  rw [hscan]
  constructor
  · rfl
  · rcases scanFallible (lowerData (jsTrim p2.2).data) 1 p2.1 with _ | nr2 <;> rfl

/-- Witness for the amended C4 on the concrete stale trace. -/
theorem c4_stale_results_applied_witness :
    (finishPending (pureDoc [["foo"]], "foo")
        (onDocumentLoadSuccess (pureDoc [["bar"]]) initialState)).searchResults =
      [⟨0, 1, 0⟩] :=
  (c4_stale_results_applied (pureDoc [["foo"]], "foo") (pureDoc [["bar"]], "bar")
    initialState (pureDoc [["bar"]]) [⟨0, 1, 0⟩] (by decide)).1

/-- C8 counterexample: after a successful search for "a", changing the input
to the whitespace-only query " " leaves the result set, cursor and success
message fully intact, because the input handler clears only on the exactly
empty string; so a query that becomes whitespace-only does not empty the
result set. -/
theorem c8_clear_query_counterexample :
    (jsTrim (handleSearchInputChange " "
        (executeSearch (handleSearchInputChange "a"
          (onDocumentLoadSuccess (pureDoc [["ab"]]) initialState)))).searchQuery = "") ∧
    (handleSearchInputChange " "
        (executeSearch (handleSearchInputChange "a"
          (onDocumentLoadSuccess (pureDoc [["ab"]]) initialState)))).searchResults =
      [⟨0, 1, 0⟩] ∧
    (handleSearchInputChange " "
        (executeSearch (handleSearchInputChange "a"
          (onDocumentLoadSuccess (pureDoc [["ab"]]) initialState)))).currentResultIndex = 0 ∧
    (handleSearchInputChange " "
        (executeSearch (handleSearchInputChange "a"
          (onDocumentLoadSuccess (pureDoc [["ab"]]) initialState)))).searchMessage =
      "1 result(s) found." := by
  decide

/-- C8 amended: the input handler clears results, count, cursor and message
exactly when the new query is the empty string, and otherwise only stores the
query; executing a search whose trimmed query is empty clears results, count
and cursor and resets the message to neutral whether or not a document is
loaded. -/
theorem c8_clear_query_behavior (s : ViewerState) (q : String) :
    (q = "" →
      (handleSearchInputChange q s).searchResults = [] ∧
      (handleSearchInputChange q s).currentResultIndex = -1 ∧
      (handleSearchInputChange q s).totalResults = 0 ∧
      (handleSearchInputChange q s).searchMessage = "") ∧
    (q ≠ "" → handleSearchInputChange q s = { s with searchQuery := q }) ∧
    (jsTrim s.searchQuery = "" →
      (executeSearch s).searchResults = [] ∧
      (executeSearch s).currentResultIndex = -1 ∧
      (executeSearch s).totalResults = 0 ∧
      (executeSearch s).searchMessage = "") := by
  refine ⟨?_, ?_, ?_⟩
  · intro hq
    subst hq
    simp [handleSearchInputChange]
  · intro hq
    simp [handleSearchInputChange, hq]
  · intro ht
    obtain ⟨proxy, q0, res, cur, tot, msg, srch, key⟩ := s
    simp only at ht
    cases proxy with
    | none =>
        simp only [executeSearch, startSearch, shortCircuitSearch, if_pos ht]
        exact ⟨trivial, trivial, trivial, trivial⟩
    | some fd =>
        simp only [executeSearch, startSearch, shortCircuitSearch, if_pos ht]
        exact ⟨trivial, trivial, trivial, trivial⟩

/-- Witness for the amended C8: a whitespace-only query is stored untouched
by the input handler, and searching with it resets the message to neutral. -/
theorem c8_clear_query_behavior_witness :
    (handleSearchInputChange " x" initialState).searchQuery = " x" ∧
    (executeSearch { initialState with searchQuery := "   " }).searchMessage = "" := by
  constructor
  · rw [(c8_clear_query_behavior initialState " x").2.1 (by decide)]
  · exact ((c8_clear_query_behavior { initialState with searchQuery := "   " }
      "x").2.2 (by decide)).2.2.2

/-- C9: executing a search with a query that is non-empty after trimming
while no document proxy is present yields an empty result set, zero count, an
unset cursor and the message "Document not loaded.", which differs from the
zero-match message; executeSearch is a total function, so no exception is
thrown. -/
theorem c9_document_not_loaded (s : ViewerState)
    (hp : s.pdfProxy = none) (hq : jsTrim s.searchQuery ≠ "") :
    (executeSearch s).searchResults = [] ∧
    (executeSearch s).totalResults = 0 ∧
    (executeSearch s).currentResultIndex = -1 ∧
    (executeSearch s).searchMessage = "Document not loaded." ∧
    "Document not loaded." ≠ "No results found." := by
  obtain ⟨proxy, q0, res, cur, tot, msg, srch, key⟩ := s
  simp only at hp hq
  subst hp
  simp only [executeSearch, startSearch, shortCircuitSearch, if_neg hq]
  exact ⟨trivial, trivial, trivial, trivial, by decide⟩

/-- Witness for C9 on the initial state with a pending query. -/
theorem c9_document_not_loaded_witness :
    (executeSearch { initialState with searchQuery := "x" }).searchMessage =
      "Document not loaded." :=
  (c9_document_not_loaded { initialState with searchQuery := "x" } rfl
    (by decide)).2.2.2.1

lemma splitAux_ne_nil (q : List Char) (fuel : Nat) (s : List Char) :
    splitAux q fuel s ≠ [] := by
  rcases fuel with _ | f <;> rcases s with _ | ⟨c, r⟩ <;> simp only [splitAux]
  · simp
  · simp
  · simp
  · split
    · simp
    · rcases splitAux q f r with _ | ⟨h1, t⟩ <;> simp

lemma splitAux_join (q : List Char) :
    ∀ (fuel : Nat) (s : List Char), (splitAux q fuel s).join = s := by
  intro fuel
  induction fuel with
  | zero =>
      intro s
      rcases s with _ | ⟨c, r⟩ <;> simp [splitAux]
  | succ f ih =>
      intro s
      rcases s with _ | ⟨c, r⟩
      · simp [splitAux]
      · simp only [splitAux]
        split
        · simp only [List.join_cons, List.nil_append, ih]
          exact List.take_append_drop _ _
        · rcases hsp : splitAux q f r with _ | ⟨h1, t⟩
          · exact absurd hsp (splitAux_ne_nil q f r)
          · have hjoin := ih r
            rw [hsp] at hjoin
            simp only [List.join_cons] at hjoin
            simp only [List.join_cons, List.cons_append, hjoin]

lemma lcPre_nil_false {q : List Char} (hq : q ≠ []) : lcPre q [] = false := by
  rcases q with _ | ⟨a, b⟩
  · exact absurd rfl hq
  · rfl

lemma containsCI_nil_false {q : List Char} (hq : q ≠ []) : containsCI q [] = false := by
  simp only [containsCI]
  exact lcPre_nil_false hq

lemma lcPre_mono {q a b : List Char} (h : lcPre q a = true) (hab : a <+: b) :
    lcPre q b = true := by
  simp only [lcPre, List.isPrefixOf_iff_prefix] at h ⊢
  exact h.trans (hab.map Char.toLower)

lemma lcEq_of_take {q s : List Char} (hpre : lcPre q s = true) :
    lcEq (s.take q.length) q = true := by
  have hpre1 : List.map Char.toLower q <+: List.map Char.toLower s := by
    simpa [lcPre, lowerData, List.isPrefixOf_iff_prefix] using hpre
  simp only [lcEq, lowerData]
  rw [List.map_take]
  have hlen : q.length = (List.map Char.toLower q).length := (List.length_map _ _).symm
  rw [hlen, ← List.prefix_iff_eq_take.mp hpre1]
  exact beq_self_eq_true _

lemma splitAux_parts (q : List Char) (hq : q ≠ []) :
    ∀ (fuel : Nat) (s : List Char), s.length ≤ fuel →
      (∀ part ∈ splitAux q fuel s,
          lcEq part q = true ∨ containsCI q part = false) ∧
      (∀ h t, splitAux q fuel s = h :: t → containsCI q h = false) := by
  intro fuel
  induction fuel with
  | zero =>
      intro s hs
      have hnil : s = [] := List.length_eq_zero.mp (Nat.le_zero.mp hs)
      subst hnil
      constructor
      · intro part hp
        simp only [splitAux, List.mem_singleton] at hp
        subst hp
        exact Or.inr (containsCI_nil_false hq)
      · intro h t hht
        simp only [splitAux, List.cons.injEq] at hht
        rw [← hht.1]
        exact containsCI_nil_false hq
  | succ f ih =>
      intro s hs
      rcases s with _ | ⟨c, r⟩
      · constructor
        · intro part hp
          simp only [splitAux, List.mem_singleton] at hp
          subst hp
          exact Or.inr (containsCI_nil_false hq)
        · intro h t hht
          simp only [splitAux, List.cons.injEq] at hht
          rw [← hht.1]
          exact containsCI_nil_false hq
      · have hrlen : r.length ≤ f := by
          simpa using hs
        simp only [splitAux]
        split
        · next hpre =>
          have hdlen : ((c :: r).drop q.length).length ≤ f := by
            have hq1 : 1 ≤ q.length := by
              rcases q with _ | _
              · exact absurd rfl hq
              · simp
            simp only [List.length_drop, List.length_cons]
            omega
          obtain ⟨ih1, ih2⟩ := ih ((c :: r).drop q.length) hdlen
          constructor
          · intro part hp
            rcases List.mem_cons.mp hp with h0 | hp1
            · subst h0
              exact Or.inr (containsCI_nil_false hq)
            · rcases List.mem_cons.mp hp1 with h1 | hp2
              · subst h1
                exact Or.inl (lcEq_of_take hpre)
              · exact ih1 part hp2
          · intro h t hht
            simp only [List.cons.injEq] at hht
            rw [← hht.1]
            exact containsCI_nil_false hq
        · next hpre =>
          obtain ⟨ih1, ih2⟩ := ih r hrlen
          rcases hsp : splitAux q f r with _ | ⟨h1, t⟩
          · exact absurd hsp (splitAux_ne_nil q f r)
          · have hh1r : h1 <+: r := by
              have hjoin := splitAux_join q f r
              rw [hsp] at hjoin
              simp only [List.join_cons] at hjoin
              exact ⟨t.join, hjoin⟩
            have hnoc1 : containsCI q h1 = false := ih2 h1 t hsp
            have hnoc : containsCI q (c :: h1) = false := by
              simp only [containsCI, Bool.or_eq_false_iff]
              refine ⟨?_, hnoc1⟩
              by_contra hcp
              rw [Bool.not_eq_false] at hcp
              have hch1 : (c :: h1) <+: (c :: r) := by
                obtain ⟨u, hu⟩ := hh1r
                exact ⟨u, by rw [List.cons_append, hu]⟩
              exact hpre (lcPre_mono hcp hch1)
            constructor
            · intro part hp
              rcases List.mem_cons.mp hp with h0 | hp1
              · subst h0
                exact Or.inr hnoc
              · refine ih1 part ?_
                rw [hsp]
                exact List.mem_cons_of_mem h1 hp1
            · intro h t2 hht
              simp only [List.cons.injEq] at hht
              rw [← hht.1]
              exact hnoc

lemma splitParts_join (q s : List Char) : (splitParts q s).join = s :=
  splitAux_join q s.length s

lemma splitParts_parts {q : List Char} (hq : q ≠ []) (s : List Char) :
    ∀ part ∈ splitParts q s, lcEq part q = true ∨ containsCI q part = false :=
  (splitAux_parts q hq s.length s le_rfl).1

lemma isCurrentActiveMatch_iff (s : ViewerState) (page idx : Nat) :
    isCurrentActiveMatch s page idx = true ↔
      ∃ r, resultAt s.searchResults s.currentResultIndex = some r ∧
        r.pageNumber = page ∧ r.textItemIndex = idx := by
  unfold isCurrentActiveMatch
  rcases hr : resultAt s.searchResults s.currentResultIndex with _ | r
  · simp
  · have hne : s.currentResultIndex ≠ -1 := by
      intro hcur
      rw [hcur] at hr
      simp [resultAt] at hr
    simp [hne]

/-- C10: for every state, page, item index and item text, the texts of the
runs produced by the highlight renderer concatenate exactly to the original
item text: the split-and-mark step never drops, duplicates or reorders a
character. -/
theorem c10_runs_concat (s : ViewerState) (page idx : Nat) (text : String) :
    ((customTextRendererWrapper s page text idx).map runData).join = text.data := by
  simp only [customTextRendererWrapper]
  split
  · simp [runData]
  · rcases hfind : List.find? (resultPred page idx) s.searchResults with _ | r
    · simp [runData]
    · show (List.map runData (List.map (fun part =>
            if lcEq part (jsTrim s.searchQuery).data then
              Run.mark (isCurrentActiveMatch s page idx) ⟨part⟩
            else Run.plain ⟨part⟩)
          (splitParts (jsTrim s.searchQuery).data text.data))).join = text.data
      simp only [List.map_map]
      have hcomp : ∀ part ∈ splitParts (jsTrim s.searchQuery).data text.data,
          (runData ∘ fun part =>
            if lcEq part (jsTrim s.searchQuery).data then
              Run.mark (isCurrentActiveMatch s page idx) ⟨part⟩
            else Run.plain ⟨part⟩) part = id part := by
        intro part _
        simp only [Function.comp_apply, id_eq]
        split <;> rfl
      rw [List.map_congr_left hcomp, List.map_id]
      exact splitParts_join _ _

/-- C5: the highlight renderer returns the item text as a single plain run
whenever the trimmed query is empty or this (page, itemIndex) is not in the
result set; otherwise every mark run it produces is a case-insensitive
occurrence of the trimmed query, a mark run is active exactly when the
navigator current result designates this (page, itemIndex), and every plain
run contains no case-insensitive occurrence of the query (so the text is
split at every occurrence). -/
theorem c5_highlight_classification (s : ViewerState) (page idx : Nat)
    (text : String) :
    ((jsTrim s.searchQuery = "" ∨
        List.find? (resultPred page idx) s.searchResults = none) →
      customTextRendererWrapper s page text idx = [Run.plain text]) ∧
    (jsTrim s.searchQuery ≠ "" →
      (List.find? (resultPred page idx) s.searchResults).isSome →
      (∀ b t, Run.mark b t ∈ customTextRendererWrapper s page text idx →
          lcEq t.data (jsTrim s.searchQuery).data = true ∧
          (b = true ↔ ∃ r, resultAt s.searchResults s.currentResultIndex = some r ∧
              r.pageNumber = page ∧ r.textItemIndex = idx)) ∧
      (∀ t, Run.plain t ∈ customTextRendererWrapper s page text idx →
          containsCI (jsTrim s.searchQuery).data t.data = false)) := by
  constructor
  · rintro (hq | hfind)
    · simp [customTextRendererWrapper, hq]
    · simp only [customTextRendererWrapper]
      split
      · rfl
      · rw [hfind]
  · intro hq hsome
    have hne : s.searchResults.isEmpty = false := by
      rcases hres : s.searchResults with _ | ⟨a, l⟩
      · rw [hres] at hsome
        simp at hsome
      · rfl
    rcases hfind : List.find? (resultPred page idx) s.searchResults with _ | r
    · rw [hfind] at hsome
      simp at hsome
    · have hqd : (jsTrim s.searchQuery).data ≠ [] := by
        intro hd
        apply hq
        have : jsTrim s.searchQuery = ⟨[]⟩ := by
          cases hjt : jsTrim s.searchQuery
          simp_all
        exact this
      have hout : customTextRendererWrapper s page text idx =
          (splitParts (jsTrim s.searchQuery).data text.data).map
            (fun part =>
              if lcEq part (jsTrim s.searchQuery).data then
                Run.mark (isCurrentActiveMatch s page idx) ⟨part⟩
              else Run.plain ⟨part⟩) := by
        simp only [customTextRendererWrapper, hq, hne, Bool.or_false, decide_eq_true_eq]
        rw [if_neg (by simp [hq, hne])]
        rw [hfind]
      constructor
      · intro b t hmem
        rw [hout] at hmem
        obtain ⟨part, hpart, hcl⟩ := List.mem_map.mp hmem
        by_cases hlc : lcEq part (jsTrim s.searchQuery).data = true
        · rw [if_pos hlc] at hcl
          obtain ⟨hb, ht⟩ : b = isCurrentActiveMatch s page idx ∧ t = ⟨part⟩ := by
            cases hcl
            exact ⟨rfl, rfl⟩
          subst hb
          subst ht
          refine ⟨hlc, ?_⟩
          rw [← isCurrentActiveMatch_iff s page idx]
        · rw [if_neg hlc] at hcl
          cases hcl
      · intro t hmem
        rw [hout] at hmem
        obtain ⟨part, hpart, hcl⟩ := List.mem_map.mp hmem
        by_cases hlc : lcEq part (jsTrim s.searchQuery).data = true
        · rw [if_pos hlc] at hcl
          cases hcl
        · rw [if_neg hlc] at hcl
          have ht : t = ⟨part⟩ := by
            cases hcl
            rfl
          subst ht
          rcases splitParts_parts hqd text.data part hpart with h1 | h2
          · exact absurd h1 hlc
          · exact h2

/-- Witness for C5 on a concrete state: query "b", result set containing
(page 1, item 0), cursor on it, item text "aba"; the renderer marks the one
occurrence as active. -/
theorem c5_highlight_classification_witness :
    lcEq "b".data (jsTrim "b").data = true ∧
    (true = true ↔ ∃ r, resultAt [(⟨0, 1, 0⟩ : SearchResult)] 0 = some r ∧
        r.pageNumber = 1 ∧ r.textItemIndex = 0) := by
  have h := (c5_highlight_classification
    { initialState with
        searchQuery := "b"
        searchResults := [⟨0, 1, 0⟩]
        currentResultIndex := 0
        totalResults := 1 } 1 0 "aba").2 (by decide) (by decide)
  exact h.1 true "b" (by decide)

end ChatPdfFlow
